import Mathlib

/-!
Promotion of resource attributes to datapoint labels.

A shallow embedding of `exporter/exporterhelper/resource_to_label.go`.

The Go code works on the `pdata` containers (a metrics document, its resource
groups, instrumentation-library groups, metrics and datapoints) and on two
slice-backed maps, `pdata.StringMap` and `pdata.AttributeMap`.  The containers
are embedded as Lean structures holding lists, the maps as association lists.
The stringification rule `tracetranslator.AttributeValueToString` and the type
of attribute values are parameters of the development.
-/

namespace ResourceToLabel

/-! ## Label mappings and attribute maps -/

/-- Modelled from the spec: the container `pdata.StringMap` (a Label Mapping of
string key/value pairs supporting upsert, insert-or-overwrite), whose
declaration is not part of the source files.  It is an ordered sequence of
key/value entries. -/
abbrev StringMap := List (String × String)

/-- Modelled from the spec: the container `pdata.AttributeMap` (the key to typed
value attributes of a Resource), whose declaration is not part of the source
files.  `AV` is the type of attribute values. -/
abbrev AttributeMap (AV : Type) := List (String × AV)

/-- Modelled from the spec: `StringMap.Get`, the value of the first entry with
key `k`, if any. -/
def StringMap.Get : StringMap → String → Option String
  | [], _ => none
  | (k', v') :: rest, k => if k' = k then some v' else StringMap.Get rest k

/-- Modelled from the spec: `StringMap.Upsert`, insert-or-overwrite.  When an
entry with key `k` exists its value is replaced by `v`, otherwise the entry
`(k, v)` is appended. -/
def StringMap.Upsert : StringMap → String → String → StringMap
  | [], k, v => [(k, v)]
  | (k', v') :: rest, k, v =>
    if k' = k then (k', v) :: rest else (k', v') :: StringMap.Upsert rest k v

/-- Modelled from the spec: `StringMap.Range`, which calls `f` on every entry in
order and stops as soon as `f` returns `false`.  The state touched by the
callback is threaded through as `s`. -/
def StringMap.Range {σ : Type} : StringMap → (String → String → σ → σ × Bool) → σ → σ
  | [], _, s => s
  | (k, v) :: rest, f, s =>
    if (f k v s).2 then StringMap.Range rest f (f k v s).1 else (f k v s).1

/-- Modelled from the spec: `AttributeMap.Range`, which calls `f` on every
attribute in order and stops as soon as `f` returns `false`. -/
def AttributeMap.Range {AV σ : Type} :
    AttributeMap AV → (String → AV → σ → σ × Bool) → σ → σ
  | [], _, s => s
  | (k, av) :: rest, f, s =>
    if (f k av s).2 then AttributeMap.Range rest f (f k av s).1 else (f k av s).1

/-- The keys of a label mapping, in entry order. -/
def StringMap.keys (sm : StringMap) : List String := sm.map Prod.fst

/-- The keys of an attribute map, in entry order. -/
def AttributeMap.keys {AV : Type} (am : AttributeMap AV) : List String := am.map Prod.fst

/-! ## The metrics document -/

/-- A `pdata.Resource`: the attributes describing the telemetry source. -/
structure Resource (AV : Type) where
  attributes : AttributeMap AV
  deriving DecidableEq, Repr

/-- The value of a number datapoint: an int64, or the bits of a float64. -/
inductive NumberValue where
  | int (v : Int)
  | double (bits : Nat)
  deriving DecidableEq, Repr

/-- A `pdata.NumberDataPoint`. -/
structure NumberDataPoint where
  labels : StringMap
  startTimestamp : Nat
  timestamp : Nat
  value : NumberValue
  deriving DecidableEq, Repr

/-- A `pdata.HistogramDataPoint`; `sum` and `explicitBounds` hold float64 bits. -/
structure HistogramDataPoint where
  labels : StringMap
  startTimestamp : Nat
  timestamp : Nat
  count : Nat
  sum : Nat
  bucketCounts : List Nat
  explicitBounds : List Nat
  deriving DecidableEq, Repr

/-- A `pdata.SummaryDataPoint`; `sum` and the quantile pairs hold float64 bits. -/
structure SummaryDataPoint where
  labels : StringMap
  startTimestamp : Nat
  timestamp : Nat
  count : Nat
  sum : Nat
  quantileValues : List (Nat × Nat)
  deriving DecidableEq, Repr

/-- The data of a `pdata.Metric`, tagged by `DataType()`: `none` is
`MetricDataTypeNone`, the others carry their datapoint slice. -/
inductive MetricData where
  | none
  | gauge (dataPoints : List NumberDataPoint)
  | sum (aggregationTemporality : Nat) (isMonotonic : Bool)
      (dataPoints : List NumberDataPoint)
  | histogram (aggregationTemporality : Nat) (dataPoints : List HistogramDataPoint)
  | summary (dataPoints : List SummaryDataPoint)
  deriving DecidableEq, Repr

/-- A `pdata.Metric`. -/
structure Metric where
  name : String
  description : String
  unit : String
  data : MetricData
  deriving DecidableEq, Repr

/-- A `pdata.InstrumentationLibraryMetrics`: a scope identity and its metrics. -/
structure InstrumentationLibraryMetrics where
  libraryName : String
  libraryVersion : String
  metrics : List Metric
  deriving DecidableEq, Repr

/-- A `pdata.ResourceMetrics`: one resource and its instrumentation scopes. -/
structure ResourceMetrics (AV : Type) where
  resource : Resource AV
  instrumentationLibraryMetrics : List InstrumentationLibraryMetrics
  deriving DecidableEq, Repr

/-- A `pdata.Metrics`: the metrics document. -/
structure Metrics (AV : Type) where
  resourceMetrics : List (ResourceMetrics AV)
  deriving DecidableEq, Repr

/-- Modelled from the spec: `Metrics.Clone`, a deep copy of the document.  On
values a deep copy is the value itself. -/
def Metrics.Clone {AV : Type} (md : Metrics AV) : Metrics AV := md

/-! ## The transform -/

/-- The function `joinStringMaps(from, to)`: ranges over `from` and upserts every
entry into `to`; the callback always returns `true`. -/
def joinStringMaps (fromMap toMap : StringMap) : StringMap :=
  StringMap.Range fromMap (fun k v target => (StringMap.Upsert target k v, true)) toMap

/-- The function `extractLabelsFromResource`: starts from `pdata.NewStringMap()` and upserts
the stringified value of every attribute of the resource. -/
def extractLabelsFromResource {AV : Type} (AttributeValueToString : AV → String)
    (resource : Resource AV) : StringMap :=
  AttributeMap.Range resource.attributes
    (fun k av labelMap => (StringMap.Upsert labelMap k (AttributeValueToString av), true))
    []

/-- The function `addLabelsToNumberDataPoints`: joins the labels into every datapoint of the
slice, in order. -/
def addLabelsToNumberDataPoints (ps : List NumberDataPoint) (newLabelMap : StringMap) :
    List NumberDataPoint :=
  ps.map (fun p => { p with labels := joinStringMaps newLabelMap p.labels })

/-- The function `addLabelsToDoubleHistogramDataPoints`: joins the labels into every datapoint
of the slice, in order. -/
def addLabelsToDoubleHistogramDataPoints (ps : List HistogramDataPoint)
    (newLabelMap : StringMap) : List HistogramDataPoint :=
  ps.map (fun p => { p with labels := joinStringMaps newLabelMap p.labels })

/-- The function `addLabelsToMetric`: the switch on `metric.DataType()`; a data type without a
case leaves the metric as it is. -/
def addLabelsToMetric (metric : Metric) (labelMap : StringMap) : Metric :=
  match metric.data with
  | .gauge dps => { metric with data := .gauge (addLabelsToNumberDataPoints dps labelMap) }
  | .sum t m dps => { metric with data := .sum t m (addLabelsToNumberDataPoints dps labelMap) }
  | .histogram t dps =>
    { metric with data := .histogram t (addLabelsToDoubleHistogramDataPoints dps labelMap) }
  | .none => metric
  | .summary _ => metric

/-- The body of the outer loop of `convertResourceToLabels` for one resource
group: the label map is extracted once, then every metric of every
instrumentation scope is visited in order. -/
def convertResourceMetrics {AV : Type} (AttributeValueToString : AV → String)
    (rm : ResourceMetrics AV) : ResourceMetrics AV :=
  let labelMap := extractLabelsFromResource AttributeValueToString rm.resource
  { rm with
    instrumentationLibraryMetrics :=
      rm.instrumentationLibraryMetrics.map (fun ilm =>
        { ilm with metrics := ilm.metrics.map (fun metric => addLabelsToMetric metric labelMap) }) }

/-- The function `convertResourceToLabels`: clones the document, walks the clone and returns
it. -/
def convertResourceToLabels {AV : Type} (AttributeValueToString : AV → String)
    (md : Metrics AV) : Metrics AV :=
  let cloneMd := md.Clone
  { cloneMd with
    resourceMetrics := cloneMd.resourceMetrics.map (convertResourceMetrics AttributeValueToString) }

/-! ## Reading a document by position -/

/-- Whether the switch of `addLabelsToMetric` has a case for this data type:
Gauge, Sum and Histogram. -/
def MetricData.isRecognized : MetricData → Bool
  | .gauge _ => true
  | .sum _ _ _ => true
  | .histogram _ _ => true
  | .none => false
  | .summary _ => false

/-- The label mappings of the datapoints of a metric, in datapoint order. -/
def MetricData.labelMaps : MetricData → List StringMap
  | .none => []
  | .gauge dps => dps.map (fun p => p.labels)
  | .sum _ _ dps => dps.map (fun p => p.labels)
  | .histogram _ dps => dps.map (fun p => p.labels)
  | .summary dps => dps.map (fun p => p.labels)

/-- The resource of the `i`-th resource group of the document. -/
def resourceAt {AV : Type} (md : Metrics AV) (i : Nat) : Option (Resource AV) :=
  (md.resourceMetrics[i]?).map (fun rm => rm.resource)

/-- The `k`-th metric of the `j`-th instrumentation scope of the `i`-th resource
group of the document. -/
def metricAt {AV : Type} (md : Metrics AV) (i j k : Nat) : Option Metric :=
  (md.resourceMetrics[i]?).bind (fun rm =>
    (rm.instrumentationLibraryMetrics[j]?).bind (fun ilm => ilm.metrics[k]?))

/-- The label mapping of the `l`-th datapoint of the metric at position
`i`, `j`, `k`. -/
def labelsAt {AV : Type} (md : Metrics AV) (i j k l : Nat) : Option StringMap :=
  (metricAt md i j k).bind (fun m => m.data.labelMaps[l]?)

/-! ## The document with its label mappings blanked

Two documents with the same blanked form have the same number and order of
resource groups, scopes, metrics and datapoints, and agree on every field that
is not a datapoint label mapping. -/

/-- The metric data with every datapoint label mapping replaced by the empty
mapping. -/
def MetricData.withoutLabels : MetricData → MetricData
  | .none => .none
  | .gauge dps => .gauge (dps.map (fun p => { p with labels := [] }))
  | .sum t m dps => .sum t m (dps.map (fun p => { p with labels := [] }))
  | .histogram t dps => .histogram t (dps.map (fun p => { p with labels := [] }))
  | .summary dps => .summary (dps.map (fun p => { p with labels := [] }))

/-- The metric with every datapoint label mapping blanked. -/
def Metric.withoutLabels (m : Metric) : Metric :=
  { m with data := m.data.withoutLabels }

/-- The instrumentation scope group with every datapoint label mapping blanked. -/
def InstrumentationLibraryMetrics.withoutLabels (ilm : InstrumentationLibraryMetrics) :
    InstrumentationLibraryMetrics :=
  { ilm with metrics := ilm.metrics.map Metric.withoutLabels }

/-- The resource group with every datapoint label mapping blanked. -/
def ResourceMetrics.withoutLabels {AV : Type} (rm : ResourceMetrics AV) : ResourceMetrics AV :=
  { rm with
    instrumentationLibraryMetrics :=
      rm.instrumentationLibraryMetrics.map InstrumentationLibraryMetrics.withoutLabels }

/-- The document with every datapoint label mapping blanked. -/
def Metrics.withoutLabels {AV : Type} (md : Metrics AV) : Metrics AV :=
  { md with resourceMetrics := md.resourceMetrics.map ResourceMetrics.withoutLabels }

/-- The number of datapoints of a metric. -/
def MetricData.numDataPoints (d : MetricData) : Nat := d.labelMaps.length

/-! ## Documents as explicit state

The Go values are handles on heap documents.  A store holds the allocated
documents; a handle is the position of its document in the store. -/

/-- The allocated documents. -/
structure Store (AV : Type) where
  cells : List (Metrics AV)
  deriving DecidableEq, Repr

/-- The document a handle points to, if the handle is allocated. -/
def Store.read {AV : Type} (st : Store AV) (r : Nat) : Option (Metrics AV) :=
  st.cells[r]?

/-- Modelled from the spec: `Metrics.Clone` on handles, a deep copy of the
document into a newly allocated cell; returns the new store and the new
handle. -/
def Store.Clone {AV : Type} (st : Store AV) (r : Nat) : Option (Store AV × Nat) :=
  (st.read r).map (fun d => ({ cells := st.cells ++ [d] }, st.cells.length))

/-- In-place mutation of the document behind handle `r`. -/
def Store.mutate {AV : Type} (st : Store AV) (r : Nat) (f : Metrics AV → Metrics AV) :
    Store AV :=
  match st.cells[r]? with
  | some d => { cells := st.cells.set r (f d) }
  | none => st

/-- The function `convertResourceToLabels` on handles: the input document is
cloned into a new cell, the loops mutate the document behind the clone handle,
and the clone handle is returned. -/
def convertResourceToLabelsInStore {AV : Type} (AttributeValueToString : AV → String)
    (st : Store AV) (md : Nat) : Option (Store AV × Nat) :=
  (st.Clone md).map (fun (st1, cloneMd) =>
    (st1.mutate cloneMd (fun d =>
      { d with
        resourceMetrics :=
          d.resourceMetrics.map (convertResourceMetrics AttributeValueToString) }),
     cloneMd))

/-- The `j`-th instrumentation scope group of the `i`-th resource group. -/
def scopeAt {AV : Type} (md : Metrics AV) (i j : Nat) : Option InstrumentationLibraryMetrics :=
  (md.resourceMetrics[i]?).bind (fun rm => rm.instrumentationLibraryMetrics[j]?)

/-! ## Settings -/

/-- The configuration `ResourceToTelemetrySettings` for converting resource
attributes to metric labels. -/
structure ResourceToTelemetrySettings where
  Enabled : Bool
  deriving DecidableEq, Repr

/-- The function `defaultResourceToTelemetrySettings`: the default settings. -/
def defaultResourceToTelemetrySettings : ResourceToTelemetrySettings :=
  { Enabled := false }

/-! ## The document comparison of the correctness testbed -/

/-- Modelled from the spec: the container `pdata.ResourceMetricsSlice`, the
ordered sequence of resource groups of a document, whose declaration is not part
of the source files. -/
abbrev ResourceMetricsSlice (AV : Type) := List (ResourceMetrics AV)

/-- Modelled from the spec: `ResourceMetricsSlice.Len`, the number of resource
groups. -/
def ResourceMetricsSlice.Len {AV : Type} (s : ResourceMetricsSlice AV) : Nat := s.length

/-- The loop of `toSlice` from index `i` on, with `out` the slice built so far:
while `i < s.Len()` the element `s.At(i)` is appended to `out`. -/
def toSliceLoop {AV : Type} (s : ResourceMetricsSlice AV) (i : Nat)
    (out : List (ResourceMetrics AV)) : List (ResourceMetrics AV) :=
  if h : i < s.length then toSliceLoop s (i + 1) (out ++ [s[i]]) else out
termination_by s.length - i

/-- The function `toSlice`: the loop started at index 0 with the nil slice. -/
def toSlice {AV : Type} (s : ResourceMetricsSlice AV) : List (ResourceMetrics AV) :=
  toSliceLoop s 0 []

/-- The function `diffMetricData`: hands the resource groups of the two
documents, each turned into a slice by `toSlice`, to `diffRMSlices`.  The
function `diffRMSlices` and the type `δ` of its result are parameters. -/
def diffMetricData {AV δ : Type}
    (diffRMSlices : List (ResourceMetrics AV) → List (ResourceMetrics AV) → δ)
    (expected actual : Metrics AV) : δ :=
  diffRMSlices (toSlice expected.resourceMetrics) (toSlice actual.resourceMetrics)

/-! ## Example documents -/

/-- Stringification of string-typed attribute values: the string itself. -/
def stringPassthrough (s : String) : String := s

/-- A number datapoint with the given labels. -/
def exPoint (labels : StringMap) : NumberDataPoint :=
  { labels := labels, startTimestamp := 0, timestamp := 1, value := .int 7 }

/-- A histogram datapoint with the given labels. -/
def exHistPoint (labels : StringMap) : HistogramDataPoint :=
  { labels := labels, startTimestamp := 0, timestamp := 1, count := 2, sum := 0,
    bucketCounts := [1, 1], explicitBounds := [0] }

/-- A document with one resource group, one scope and one metric. -/
def exDoc (attrs : AttributeMap String) (data : MetricData) : Metrics String :=
  { resourceMetrics :=
      [{ resource := { attributes := attrs },
         instrumentationLibraryMetrics :=
           [{ libraryName := "lib", libraryVersion := "1", metrics :=
                [{ name := "m", description := "", unit := "1", data := data }] }] }] }

/-- Scenario C of the spec: a resource with two attributes and a Histogram with
three datapoints, the last of which already carries an unrelated label. -/
def scenarioC : Metrics String :=
  exDoc [("region", "us-east"), ("host", "h1")]
    (.histogram 2 [exHistPoint [], exHistPoint [], exHistPoint [("zone", "b")]])

/-- A document whose resource repeats the attribute key region and has an
attribute zone, above a Gauge datapoint already labelled zone. -/
def repeatedKeyDoc : Metrics String :=
  exDoc [("region", "us-east"), ("region", "eu-west"), ("zone", "c")]
    (.gauge [exPoint [("zone", "b")]])

/-- A resource group with one scope and one metric. -/
def exGroup (attrs : AttributeMap String) (data : MetricData) : ResourceMetrics String :=
  { resource := { attributes := attrs },
    instrumentationLibraryMetrics :=
      [{ libraryName := "lib", libraryVersion := "1", metrics :=
           [{ name := "m", description := "", unit := "1", data := data }] }] }

/-- A document with two resource groups: region us-east above a Gauge datapoint
labelled zone b, and host h1 above a Sum datapoint without labels. -/
def twoResourceDoc : Metrics String :=
  { resourceMetrics :=
      [exGroup [("region", "us-east")] (.gauge [exPoint [("zone", "b")]]),
       exGroup [("host", "h1")] (.sum 2 true [exPoint []])] }

/-- A document whose resource repeats the attribute key region, above a Gauge
datapoint already labelled region. -/
def repeatedConflictDoc : Metrics String :=
  exDoc [("region", "us-east"), ("region", "eu-west")]
    (.gauge [exPoint [("region", "ap-south")]])

/-- Scenario B of the spec: resource region us-east, one Gauge datapoint already
labelled region eu-west. -/
def scenarioB : Metrics String :=
  exDoc [("region", "us-east")] (.gauge [exPoint [("region", "eu-west")]])

/-! ## Lemmas on label mappings -/

theorem joinStringMaps_nil (t : StringMap) : joinStringMaps [] t = t := rfl

theorem joinStringMaps_cons (k v : String) (f t : StringMap) :
    joinStringMaps ((k, v) :: f) t = joinStringMaps f (StringMap.Upsert t k v) := by
  simp [joinStringMaps, StringMap.Range]

theorem joinStringMaps_append (f g t : StringMap) :
    joinStringMaps (f ++ g) t = joinStringMaps g (joinStringMaps f t) := by
  induction f generalizing t with
  | nil => rfl
  | cons p f ih =>
    obtain ⟨k, v⟩ := p
    simp only [List.cons_append, joinStringMaps_cons, ih]

theorem joinStringMaps_snoc (f t : StringMap) (k v : String) :
    joinStringMaps (f ++ [(k, v)]) t = StringMap.Upsert (joinStringMaps f t) k v := by
  rw [joinStringMaps_append, joinStringMaps_cons, joinStringMaps_nil]

/-- The attributes of a resource with their values stringified. -/
theorem attributeRange_eq_join {AV : Type} (toStr : AV → String) (attrs : AttributeMap AV)
    (acc : StringMap) :
    AttributeMap.Range attrs
      (fun k av labelMap => (StringMap.Upsert labelMap k (toStr av), true)) acc
      = joinStringMaps (attrs.map (fun p => (p.1, toStr p.2))) acc := by
  induction attrs generalizing acc with
  | nil => rfl
  | cons p attrs ih =>
    obtain ⟨k, av⟩ := p
    simp only [AttributeMap.Range, if_true, List.map_cons, joinStringMaps_cons, ih]

theorem extractLabelsFromResource_eq_join {AV : Type} (toStr : AV → String)
    (r : Resource AV) :
    extractLabelsFromResource toStr r
      = joinStringMaps (r.attributes.map (fun p => (p.1, toStr p.2))) [] :=
  attributeRange_eq_join toStr r.attributes []

theorem get_upsert_self (m : StringMap) (k v : String) :
    StringMap.Get (StringMap.Upsert m k v) k = some v := by
  induction m with
  | nil => simp [StringMap.Upsert, StringMap.Get]
  | cons p m ih =>
    obtain ⟨a, b⟩ := p
    by_cases h : a = k
    · simp [StringMap.Upsert, StringMap.Get, h]
    · simp [StringMap.Upsert, StringMap.Get, h, ih]

theorem get_upsert_of_ne (m : StringMap) (k v x : String) (hne : k ≠ x) :
    StringMap.Get (StringMap.Upsert m k v) x = StringMap.Get m x := by
  induction m with
  | nil => simp [StringMap.Upsert, StringMap.Get, hne]
  | cons p m ih =>
    obtain ⟨a, b⟩ := p
    by_cases h : a = k
    · subst h
      simp [StringMap.Upsert, StringMap.Get, hne]
    · by_cases hx : a = x
      · subst hx
        simp [StringMap.Upsert, StringMap.Get, h]
      · simp [StringMap.Upsert, StringMap.Get, h, hx, ih]

theorem upsert_eq_self (m : StringMap) (k v : String) (h : StringMap.Get m k = some v) :
    StringMap.Upsert m k v = m := by
  induction m with
  | nil => simp [StringMap.Get] at h
  | cons p m ih =>
    obtain ⟨a, b⟩ := p
    by_cases hk : a = k
    · simp [StringMap.Get, hk] at h
      simp [StringMap.Upsert, hk, h]
    · simp [StringMap.Get, hk] at h
      simp [StringMap.Upsert, hk, ih h]

theorem get_eq_none_iff (m : StringMap) (k : String) :
    StringMap.Get m k = none ↔ k ∉ StringMap.keys m := by
  induction m with
  | nil => simp [StringMap.Get, StringMap.keys]
  | cons p m ih =>
    obtain ⟨a, b⟩ := p
    by_cases hk : a = k
    · simp [StringMap.Get, StringMap.keys, hk]
    · have hk2 : ¬ k = a := fun e => hk e.symm
      simpa [StringMap.Get, StringMap.keys, hk, hk2] using ih

theorem keys_upsert (m : StringMap) (k v : String) :
    StringMap.keys (StringMap.Upsert m k v)
      = if k ∈ StringMap.keys m then StringMap.keys m else StringMap.keys m ++ [k] := by
  induction m with
  | nil => simp [StringMap.Upsert, StringMap.keys]
  | cons p m ih =>
    obtain ⟨a, b⟩ := p
    by_cases hk : a = k
    · simp [StringMap.Upsert, StringMap.keys, hk]
    · have hk2 : ¬ k = a := fun e => hk e.symm
      simp only [StringMap.keys] at ih
      by_cases hm : k ∈ List.map Prod.fst m
      · simp [StringMap.Upsert, StringMap.keys, hk, hk2, ih, hm]
      · simp [StringMap.Upsert, StringMap.keys, hk, hk2, ih, hm]

/-- An entry whose key carries a single value in the mapping is the one `Get`
finds. -/
theorem get_of_unique (m : StringMap) (k v : String) (hmem : (k, v) ∈ m)
    (huniq : ∀ w, (k, w) ∈ m → w = v) : StringMap.Get m k = some v := by
  induction m with
  | nil => simp at hmem
  | cons p m ih =>
    obtain ⟨a, b⟩ := p
    by_cases hk : a = k
    · subst hk
      have hb : b = v := huniq b (by simp)
      simp [StringMap.Get, hb]
    · have hm : (k, v) ∈ m := by
        rcases List.mem_cons.1 hmem with h | h
        · exact absurd (congrArg Prod.fst h).symm hk
        · exact h
      simp only [StringMap.Get, hk, if_false]
      exact ih hm (fun w hw => huniq w (List.mem_cons_of_mem _ hw))

theorem get_mem (m : StringMap) (k v : String) (h : StringMap.Get m k = some v) :
    (k, v) ∈ m := by
  induction m with
  | nil => simp [StringMap.Get] at h
  | cons p m ih =>
    obtain ⟨a, b⟩ := p
    by_cases hk : a = k
    · simp [StringMap.Get, hk] at h
      simp [hk, h]
    · simp [StringMap.Get, hk] at h
      exact List.mem_cons_of_mem _ (ih h)

/-- The value of key `x` after a join: the value of the last entry of `f` with
key `x` when there is one, the value in `t` otherwise. -/
theorem get_joinStringMaps (f t : StringMap) (x : String) :
    StringMap.Get (joinStringMaps f t) x
      = match StringMap.Get f.reverse x with
        | some v => some v
        | none => StringMap.Get t x := by
  induction f using List.reverseRecOn with
  | nil => simp [joinStringMaps_nil, StringMap.Get]
  | append_singleton f p ih =>
    obtain ⟨k, v⟩ := p
    rw [joinStringMaps_snoc]
    by_cases hk : k = x
    · subst hk
      simp [get_upsert_self, StringMap.Get]
    · rw [get_upsert_of_ne _ _ _ _ hk, ih]
      simp [StringMap.Get, hk]

theorem keys_joinStringMaps_nodup (f t : StringMap) (h : (StringMap.keys t).Nodup) :
    (StringMap.keys (joinStringMaps f t)).Nodup := by
  induction f generalizing t with
  | nil => simpa [joinStringMaps_nil] using h
  | cons p f ih =>
    obtain ⟨k, v⟩ := p
    rw [joinStringMaps_cons]
    apply ih
    rw [keys_upsert]
    by_cases hm : k ∈ StringMap.keys t
    · simpa [hm] using h
    · simp only [hm, if_false]
      exact List.Nodup.append h (List.nodup_singleton k) (by simpa using hm)

theorem mem_keys_upsert (m : StringMap) (k v x : String) :
    x ∈ StringMap.keys (StringMap.Upsert m k v) ↔ x = k ∨ x ∈ StringMap.keys m := by
  rw [keys_upsert]
  by_cases hm : k ∈ StringMap.keys m
  · rw [if_pos hm]
    constructor
    · exact fun h => Or.inr h
    · rintro (h | h)
      · rw [h]; exact hm
      · exact h
  · rw [if_neg hm, List.mem_append, List.mem_singleton]
    exact or_comm

theorem mem_keys_joinStringMaps (f t : StringMap) (x : String) :
    x ∈ StringMap.keys (joinStringMaps f t) ↔ x ∈ StringMap.keys f ∨ x ∈ StringMap.keys t := by
  induction f generalizing t with
  | nil => simp [joinStringMaps_nil, StringMap.keys]
  | cons p f ih =>
    obtain ⟨k, v⟩ := p
    rw [joinStringMaps_cons, ih, mem_keys_upsert]
    have hk : x ∈ StringMap.keys ((k, v) :: f) ↔ x = k ∨ x ∈ StringMap.keys f := by
      simp [StringMap.keys]
    rw [hk]
    tauto

theorem mem_unique_of_nodup_keys (m : StringMap) (h : (StringMap.keys m).Nodup)
    (k v w : String) (hv : (k, v) ∈ m) (hw : (k, w) ∈ m) : v = w := by
  induction m with
  | nil => simp at hv
  | cons p m ih =>
    obtain ⟨a, b⟩ := p
    simp only [StringMap.keys, List.map_cons, List.nodup_cons] at h
    obtain ⟨hnot, hnd⟩ := h
    have hkey : ∀ x, (k, x) ∈ m → k ∈ List.map Prod.fst m :=
      fun x hx => List.mem_map.2 ⟨(k, x), hx, rfl⟩
    rcases List.mem_cons.1 hv with h1 | h1 <;> rcases List.mem_cons.1 hw with h2 | h2
    · simp only [Prod.mk.injEq] at h1 h2
      rw [h1.2, h2.2]
    · simp only [Prod.mk.injEq] at h1
      exact absurd (h1.1 ▸ hkey w h2) hnot
    · simp only [Prod.mk.injEq] at h2
      exact absurd (h2.1 ▸ hkey v h1) hnot
    · exact ih hnd h1 h2

/-- Joining a mapping that already agrees with the source on every source entry
changes nothing. -/
theorem joinStringMaps_eq_self (f t : StringMap)
    (h : ∀ p ∈ f, StringMap.Get t p.1 = some p.2) : joinStringMaps f t = t := by
  induction f with
  | nil => rfl
  | cons p f ih =>
    obtain ⟨k, v⟩ := p
    rw [joinStringMaps_cons, upsert_eq_self t k v (h (k, v) (by simp))]
    exact ih (fun q hq => h q (List.mem_cons_of_mem _ hq))

/-! ## Lemmas on the walk of the document -/

theorem labelMaps_addLabelsToMetric (m : Metric) (lm : StringMap) :
    (addLabelsToMetric m lm).data.labelMaps
      = if m.data.isRecognized then m.data.labelMaps.map (joinStringMaps lm)
        else m.data.labelMaps := by
  obtain ⟨n, d, u, data⟩ := m
  cases data <;>
    simp [addLabelsToMetric, MetricData.labelMaps, MetricData.isRecognized,
      addLabelsToNumberDataPoints, addLabelsToDoubleHistogramDataPoints, Function.comp_def]

theorem addLabelsToMetric_of_not_recognized (m : Metric) (lm : StringMap)
    (h : m.data.isRecognized = false) : addLabelsToMetric m lm = m := by
  obtain ⟨n, d, u, data⟩ := m
  cases data <;> simp_all [addLabelsToMetric, MetricData.isRecognized]

theorem resourceMetrics_convert {AV : Type} (toStr : AV → String) (md : Metrics AV) (i : Nat) :
    (convertResourceToLabels toStr md).resourceMetrics[i]?
      = (md.resourceMetrics[i]?).map (convertResourceMetrics toStr) := by
  simp [convertResourceToLabels, Metrics.Clone]

theorem resourceAt_convert {AV : Type} (toStr : AV → String) (md : Metrics AV) (i : Nat) :
    resourceAt (convertResourceToLabels toStr md) i = resourceAt md i := by
  unfold resourceAt
  rw [resourceMetrics_convert]
  cases md.resourceMetrics[i]? <;> simp [convertResourceMetrics]

theorem metricAt_convert {AV : Type} (toStr : AV → String) (md : Metrics AV) (i j k : Nat)
    (R : Resource AV) (hR : resourceAt md i = some R) :
    metricAt (convertResourceToLabels toStr md) i j k
      = (metricAt md i j k).map
          (fun m => addLabelsToMetric m (extractLabelsFromResource toStr R)) := by
  unfold metricAt
  unfold resourceAt at hR
  rw [resourceMetrics_convert]
  cases hrm : md.resourceMetrics[i]? with
  | none => simp
  | some rm =>
    rw [hrm] at hR
    have hres : rm.resource = R := by simpa using hR
    subst hres
    simp only [Option.map_some', Option.some_bind, convertResourceMetrics, List.getElem?_map]
    cases rm.instrumentationLibraryMetrics[j]? with
    | none => simp
    | some ilm =>
      simp only [Option.map_some', Option.some_bind, List.getElem?_map]

theorem metricAt_resource {AV : Type} (md : Metrics AV) (i j k : Nat) (M : Metric)
    (hM : metricAt md i j k = some M) : ∃ R, resourceAt md i = some R := by
  unfold metricAt at hM
  unfold resourceAt
  cases hrm : md.resourceMetrics[i]? with
  | none => simp [hrm] at hM
  | some rm => exact ⟨rm.resource, rfl⟩

/-- The label mapping of a datapoint after the transform: the join of the
labels extracted from its own resource into its input labels when the metric is
a Gauge, a Sum or a Histogram, its input labels otherwise. -/
theorem labelsAt_convert {AV : Type} (toStr : AV → String) (md : Metrics AV) (i j k l : Nat)
    (R : Resource AV) (M : Metric) (L : StringMap)
    (hR : resourceAt md i = some R) (hM : metricAt md i j k = some M)
    (hL : labelsAt md i j k l = some L) :
    labelsAt (convertResourceToLabels toStr md) i j k l
      = some (if M.data.isRecognized
          then joinStringMaps (extractLabelsFromResource toStr R) L else L) := by
  unfold labelsAt at hL ⊢
  rw [metricAt_convert toStr md i j k R hR, hM]
  rw [hM] at hL
  simp only [Option.some_bind, Option.map_some'] at hL ⊢
  rw [labelMaps_addLabelsToMetric]
  by_cases hrec : M.data.isRecognized = true
  · simp [hrec, List.getElem?_map, hL]
  · simp [hrec, hL]

theorem labelsAt_metric {AV : Type} (md : Metrics AV) (i j k l : Nat) (L : StringMap)
    (hL : labelsAt md i j k l = some L) :
    ∃ R M, resourceAt md i = some R ∧ metricAt md i j k = some M := by
  unfold labelsAt at hL
  cases hM : metricAt md i j k with
  | none => simp [hM] at hL
  | some M =>
    obtain ⟨R, hR⟩ := metricAt_resource md i j k M hM
    exact ⟨R, M, hR, rfl⟩

/-- Positions that hold a datapoint in the output hold one in the input. -/
theorem labelsAt_of_convert {AV : Type} (toStr : AV → String) (md : Metrics AV)
    (i j k l : Nat) (L2 : StringMap)
    (h : labelsAt (convertResourceToLabels toStr md) i j k l = some L2) :
    ∃ L, labelsAt md i j k l = some L := by
  obtain ⟨R, M2, hR, hM2⟩ := labelsAt_metric _ i j k l L2 h
  rw [resourceAt_convert] at hR
  unfold labelsAt at h ⊢
  rw [metricAt_convert toStr md i j k R hR] at h
  cases hM : metricAt md i j k with
  | none => simp [hM] at h
  | some M =>
    rw [hM] at h
    simp only [Option.some_bind, Option.map_some'] at h ⊢
    rw [labelMaps_addLabelsToMetric] at h
    by_cases hrec : M.data.isRecognized = true
    · simp only [hrec, if_true, List.getElem?_map] at h
      cases hl : M.data.labelMaps[l]? with
      | none => simp [hl] at h
      | some L => exact ⟨L, rfl⟩
    · simp only [hrec] at h
      exact ⟨L2, by simpa using h⟩

/-- The labels extracted from a resource have pairwise distinct keys. -/
theorem keys_extractLabelsFromResource_nodup {AV : Type} (toStr : AV → String)
    (R : Resource AV) : (StringMap.keys (extractLabelsFromResource toStr R)).Nodup := by
  rw [extractLabelsFromResource_eq_join]
  exact keys_joinStringMaps_nodup _ [] (by simp [StringMap.keys])

theorem mem_keys_extractLabelsFromResource {AV : Type} (toStr : AV → String)
    (R : Resource AV) (k : String) :
    k ∈ StringMap.keys (extractLabelsFromResource toStr R)
      ↔ k ∈ AttributeMap.keys R.attributes := by
  rw [extractLabelsFromResource_eq_join, mem_keys_joinStringMaps]
  simp [StringMap.keys, AttributeMap.keys]

/-- The extracted label of an attribute key that carries a single value in the
resource is the stringified value. -/
theorem get_extractLabelsFromResource {AV : Type} (toStr : AV → String) (R : Resource AV)
    (k : String) (av : AV) (hmem : (k, av) ∈ R.attributes)
    (huniq : ∀ w, (k, w) ∈ R.attributes → w = av) :
    StringMap.Get (extractLabelsFromResource toStr R) k = some (toStr av) := by
  rw [extractLabelsFromResource_eq_join, get_joinStringMaps]
  have hget : StringMap.Get (R.attributes.map (fun p => (p.1, toStr p.2))).reverse k
      = some (toStr av) := by
    apply get_of_unique
    · rw [List.mem_reverse, List.mem_map]
      exact ⟨(k, av), hmem, rfl⟩
    · intro w hw
      rw [List.mem_reverse, List.mem_map] at hw
      obtain ⟨⟨a, b⟩, hab, heq⟩ := hw
      simp only [Prod.mk.injEq] at heq
      obtain ⟨ha, hb⟩ := heq
      subst ha
      rw [← hb, huniq b hab]
  rw [hget]

/-- Under a Gauge, Sum or Histogram metric the output label of an attribute key
that carries a single value in the resource is the stringified value. -/
theorem get_labelsAt_convert_of_attribute {AV : Type} (toStr : AV → String)
    (md : Metrics AV) (i j k l : Nat) (R : Resource AV) (M : Metric) (L : StringMap)
    (key : String) (av : AV)
    (hR : resourceAt md i = some R) (hM : metricAt md i j k = some M)
    (hrec : M.data.isRecognized = true) (hL : labelsAt md i j k l = some L)
    (hattr : (key, av) ∈ R.attributes) (huniq : ∀ w, (key, w) ∈ R.attributes → w = av) :
    ∃ L2, labelsAt (convertResourceToLabels toStr md) i j k l = some L2 ∧
      StringMap.Get L2 key = some (toStr av) := by
  refine ⟨_, labelsAt_convert toStr md i j k l R M L hR hM hL, ?_⟩
  simp only [hrec, if_true]
  rw [get_joinStringMaps]
  have hE := get_extractLabelsFromResource toStr R key av hattr huniq
  have hrev : StringMap.Get (extractLabelsFromResource toStr R).reverse key
      = some (toStr av) := by
    apply get_of_unique
    · exact List.mem_reverse.2 (get_mem _ _ _ hE)
    · intro w hw
      exact mem_unique_of_nodup_keys _ (keys_extractLabelsFromResource_nodup toStr R) key w
        (toStr av) (List.mem_reverse.1 hw) (get_mem _ _ _ hE)
  rw [hrev]

theorem withoutLabels_addLabelsToMetric (m : Metric) (lm : StringMap) :
    (addLabelsToMetric m lm).withoutLabels = m.withoutLabels := by
  obtain ⟨n, d, u, data⟩ := m
  cases data <;>
    simp [addLabelsToMetric, Metric.withoutLabels, MetricData.withoutLabels,
      addLabelsToNumberDataPoints, addLabelsToDoubleHistogramDataPoints, Function.comp_def]

theorem withoutLabels_convertResourceMetrics {AV : Type} (toStr : AV → String)
    (rm : ResourceMetrics AV) :
    (convertResourceMetrics toStr rm).withoutLabels = rm.withoutLabels := by
  simp [convertResourceMetrics, ResourceMetrics.withoutLabels,
    InstrumentationLibraryMetrics.withoutLabels, Function.comp_def,
    withoutLabels_addLabelsToMetric]

theorem scopeAt_convert {AV : Type} (toStr : AV → String) (md : Metrics AV) (i j : Nat) :
    scopeAt (convertResourceToLabels toStr md) i j
      = (md.resourceMetrics[i]?).bind (fun rm =>
          (rm.instrumentationLibraryMetrics[j]?).map (fun ilm =>
            { ilm with
              metrics := ilm.metrics.map (fun metric =>
                addLabelsToMetric metric (extractLabelsFromResource toStr rm.resource)) })) := by
  unfold scopeAt
  rw [resourceMetrics_convert]
  cases md.resourceMetrics[i]? with
  | none => simp
  | some rm => simp [convertResourceMetrics]

theorem numDataPoints_addLabelsToMetric (m : Metric) (lm : StringMap) :
    (addLabelsToMetric m lm).data.numDataPoints = m.data.numDataPoints := by
  unfold MetricData.numDataPoints
  rw [labelMaps_addLabelsToMetric]
  by_cases h : m.data.isRecognized = true <;> simp [h]

theorem joinStringMaps_idem (f t : StringMap) (h : (StringMap.keys f).Nodup) :
    joinStringMaps f (joinStringMaps f t) = joinStringMaps f t := by
  apply joinStringMaps_eq_self
  rintro ⟨k, v⟩ hp
  rw [get_joinStringMaps]
  have hrev : StringMap.Get f.reverse k = some v :=
    get_of_unique _ k v (List.mem_reverse.2 hp)
      (fun w hw => mem_unique_of_nodup_keys f h k w v (List.mem_reverse.1 hw) hp)
  rw [hrev]

theorem addLabelsToMetric_idem (m : Metric) (lm : StringMap) (h : (StringMap.keys lm).Nodup) :
    addLabelsToMetric (addLabelsToMetric m lm) lm = addLabelsToMetric m lm := by
  obtain ⟨n, d, u, data⟩ := m
  cases data <;>
    simp [addLabelsToMetric, addLabelsToNumberDataPoints, addLabelsToDoubleHistogramDataPoints,
      Function.comp_def, joinStringMaps_idem _ _ h]

theorem addLabelsToMetric_nil (m : Metric) : addLabelsToMetric m [] = m := by
  obtain ⟨n, d, u, data⟩ := m
  cases data <;>
    simp [addLabelsToMetric, addLabelsToNumberDataPoints, addLabelsToDoubleHistogramDataPoints,
      joinStringMaps_nil]

theorem convertResourceMetrics_of_no_attributes {AV : Type} (toStr : AV → String)
    (rm : ResourceMetrics AV) (h : rm.resource.attributes = []) :
    convertResourceMetrics toStr rm = rm := by
  have hE : extractLabelsFromResource toStr rm.resource = [] := by
    rw [extractLabelsFromResource_eq_join, h]
    rfl
  simp [convertResourceMetrics, hE, addLabelsToMetric_nil]

theorem convertResourceMetrics_idem {AV : Type} (toStr : AV → String)
    (rm : ResourceMetrics AV) :
    convertResourceMetrics toStr (convertResourceMetrics toStr rm)
      = convertResourceMetrics toStr rm := by
  simp [convertResourceMetrics, Function.comp_def,
    addLabelsToMetric_idem _ _ (keys_extractLabelsFromResource_nodup toStr rm.resource)]

/-- The transform keeps the keys of a datapoint label mapping pairwise
distinct. -/
theorem keys_labelsAt_convert_nodup {AV : Type} (toStr : AV → String) (md : Metrics AV)
    (i j k l : Nat) (L L2 : StringMap) (hL : labelsAt md i j k l = some L)
    (hnd : (StringMap.keys L).Nodup)
    (hL2 : labelsAt (convertResourceToLabels toStr md) i j k l = some L2) :
    (StringMap.keys L2).Nodup := by
  obtain ⟨R, M, hR, hM⟩ := labelsAt_metric md i j k l L hL
  rw [labelsAt_convert toStr md i j k l R M L hR hM hL] at hL2
  simp only [Option.some.injEq] at hL2
  rw [← hL2]
  by_cases hrec : M.data.isRecognized = true
  · simp only [hrec, if_true]
    exact keys_joinStringMaps_nodup _ _ hnd
  · simp only [hrec]
    exact hnd

/-- The key set of a datapoint label mapping after the transform, for a Gauge,
Sum or Histogram metric: the keys of the input labels together with the
attribute keys of the resource above the datapoint. -/
theorem mem_keys_labelsAt_convert {AV : Type} (toStr : AV → String)
    (R : Resource AV) (M : Metric) (L : StringMap) (x : String) :
    x ∈ StringMap.keys (if M.data.isRecognized
        then joinStringMaps (extractLabelsFromResource toStr R) L else L)
      ↔ (x ∈ StringMap.keys L ∨
          (M.data.isRecognized = true ∧ x ∈ AttributeMap.keys R.attributes)) := by
  by_cases hrec : M.data.isRecognized = true
  · simp only [hrec, if_true, true_and]
    rw [mem_keys_joinStringMaps, mem_keys_extractLabelsFromResource]
    exact or_comm
  · simp [hrec]

/-- The loop of `toSlice` appends the elements from index `i` on, in order. -/
theorem toSliceLoop_eq {AV : Type} (s : ResourceMetricsSlice AV) (n : Nat) :
    ∀ (i : Nat) (out : List (ResourceMetrics AV)), s.length - i = n →
      toSliceLoop s i out = out ++ s.drop i := by
  induction n with
  | zero =>
    intro i out h
    have hge : s.length ≤ i := by omega
    rw [toSliceLoop, dif_neg (by omega), List.drop_eq_nil_of_le hge, List.append_nil]
  | succ n ih =>
    intro i out h
    have hlt : i < s.length := by omega
    rw [toSliceLoop, dif_pos hlt, ih (i + 1) _ (by omega), List.drop_eq_getElem_cons hlt]
    simp

theorem toSlice_eq {AV : Type} (s : ResourceMetricsSlice AV) : toSlice s = s := by
  unfold toSlice
  rw [toSliceLoop_eq s s.length 0 [] (by omega)]
  simp

theorem get_append_of_not_mem (a b : StringMap) (k : String)
    (h : k ∉ StringMap.keys a) : StringMap.Get (a ++ b) k = StringMap.Get b k := by
  induction a with
  | nil => rfl
  | cons p a ih =>
    obtain ⟨x, y⟩ := p
    simp only [StringMap.keys, List.map_cons, List.mem_cons, not_or] at h
    have hx : ¬ x = k := fun e => h.1 e.symm
    simp only [List.cons_append, StringMap.Get, hx, if_false]
    exact ih h.2

/-- Every attribute key of an attribute map has a last attribute: the map splits
into a front, an attribute with that key, and a rest without the key. -/
theorem exists_last_attribute {AV : Type} (attrs : AttributeMap AV) (k : String)
    (h : k ∈ AttributeMap.keys attrs) :
    ∃ pre av post, attrs = pre ++ (k, av) :: post ∧ k ∉ AttributeMap.keys post := by
  induction attrs with
  | nil => simp [AttributeMap.keys] at h
  | cons p attrs ih =>
    obtain ⟨a, b⟩ := p
    by_cases hrest : k ∈ AttributeMap.keys attrs
    · obtain ⟨pre, av, post, heq, hpost⟩ := ih hrest
      exact ⟨(a, b) :: pre, av, post, by rw [heq]; rfl, hpost⟩
    · have hk : k = a := by
        simp only [AttributeMap.keys, List.map_cons, List.mem_cons] at h hrest
        rcases h with h | h
        · exact h
        · exact absurd h hrest
      subst hk
      exact ⟨[], b, attrs, rfl, hrest⟩

/-- The extracted label of a key is the stringified value of the last attribute
of the resource with that key. -/
theorem get_extractLabelsFromResource_last {AV : Type} (toStr : AV → String)
    (R : Resource AV) (k : String) (pre post : AttributeMap AV) (av : AV)
    (hsplit : R.attributes = pre ++ (k, av) :: post)
    (hpost : k ∉ AttributeMap.keys post) :
    StringMap.Get (extractLabelsFromResource toStr R) k = some (toStr av) := by
  rw [extractLabelsFromResource_eq_join, get_joinStringMaps, hsplit]
  have hkeys : k ∉ StringMap.keys (post.map (fun p => (p.1, toStr p.2))).reverse := by
    simpa [StringMap.keys, AttributeMap.keys] using hpost
  have hrev : (List.map (fun p : String × AV => (p.1, toStr p.2))
        (pre ++ (k, av) :: post)).reverse
      = (post.map (fun p => (p.1, toStr p.2))).reverse
          ++ (k, toStr av) :: (pre.map (fun p => (p.1, toStr p.2))).reverse := by
    simp
  rw [hrev, get_append_of_not_mem _ _ k hkeys]
  simp [StringMap.Get]

/-- Under a Gauge, Sum or Histogram metric the output label of a key that the
labels extracted from the resource define is the extracted value. -/
theorem get_labelsAt_convert_of_extracted {AV : Type} (toStr : AV → String)
    (md : Metrics AV) (i j k l : Nat) (R : Resource AV) (M : Metric) (L : StringMap)
    (key v : String)
    (hR : resourceAt md i = some R) (hM : metricAt md i j k = some M)
    (hrec : M.data.isRecognized = true) (hL : labelsAt md i j k l = some L)
    (hE : StringMap.Get (extractLabelsFromResource toStr R) key = some v) :
    ∃ L2, labelsAt (convertResourceToLabels toStr md) i j k l = some L2 ∧
      StringMap.Get L2 key = some v := by
  refine ⟨_, labelsAt_convert toStr md i j k l R M L hR hM hL, ?_⟩
  simp only [hrec, if_true]
  rw [get_joinStringMaps]
  have hrev : StringMap.Get (extractLabelsFromResource toStr R).reverse key = some v := by
    apply get_of_unique
    · exact List.mem_reverse.2 (get_mem _ _ _ hE)
    · intro w hw
      exact mem_unique_of_nodup_keys _ (keys_extractLabelsFromResource_nodup toStr R) key w
        v (List.mem_reverse.1 hw) (get_mem _ _ _ hE)
  rw [hrev]

/-! ## Claims on the transform -/

/-- C1, as stated, fails on Scenario B of the spec: the only datapoint carries
the label region with value eu-west, its resource has the attribute region with
value us-east, and the output datapoint carries region with value us-east. -/
theorem c1_prelabel_overwritten_scenarioB :
    resourceAt scenarioB 0 = some { attributes := [("region", "us-east")] } ∧
    (labelsAt scenarioB 0 0 0 0).bind (fun L => StringMap.Get L "region") = some "eu-west" ∧
    (labelsAt (convertResourceToLabels stringPassthrough scenarioB) 0 0 0 0).bind
      (fun L => StringMap.Get L "region") = some "us-east" ∧
    ¬ ((labelsAt (convertResourceToLabels stringPassthrough scenarioB) 0 0 0 0).bind
      (fun L => StringMap.Get L "region") = some "eu-west") := by
  decide

/-- C1, amended: a datapoint that carries label `key` with value `v` keeps that
value in the output when its resource has no attribute with that key, or when
its metric is not a Gauge, Sum or Histogram; when the resource has an attribute
with that key and the metric is a Gauge, Sum or Histogram, the output value is
the one extracted from the resource. -/
theorem c1_prelabel_kept_unless_resource_defines {AV : Type} (toStr : AV → String)
    (md : Metrics AV) (i j k l : Nat) (R : Resource AV) (M : Metric) (L : StringMap)
    (key v : String)
    (hR : resourceAt md i = some R) (hM : metricAt md i j k = some M)
    (hL : labelsAt md i j k l = some L) (hv : StringMap.Get L key = some v) :
    ∃ L2, labelsAt (convertResourceToLabels toStr md) i j k l = some L2 ∧
      ((key ∉ AttributeMap.keys R.attributes ∨ M.data.isRecognized = false) →
        StringMap.Get L2 key = some v) ∧
      ((key ∈ AttributeMap.keys R.attributes ∧ M.data.isRecognized = true) →
        StringMap.Get L2 key = StringMap.Get (extractLabelsFromResource toStr R) key) := by
  refine ⟨_, labelsAt_convert toStr md i j k l R M L hR hM hL, ?_, ?_⟩
  · intro hfree
    by_cases hrec : M.data.isRecognized = true
    · have hkey : key ∉ AttributeMap.keys R.attributes := by
        rcases hfree with h | h
        · exact h
        · rw [hrec] at h; cases h
      have hnone : StringMap.Get (extractLabelsFromResource toStr R).reverse key = none := by
        rw [get_eq_none_iff]
        intro hin
        apply hkey
        rw [← mem_keys_extractLabelsFromResource toStr R key]
        simpa [StringMap.keys] using hin
      simp only [hrec, if_true]
      rw [get_joinStringMaps, hnone]
      exact hv
    · simp only [hrec]
      exact hv
  · rintro ⟨hkey, hrec⟩
    simp only [hrec, if_true]
    rw [get_joinStringMaps]
    have hin : key ∈ StringMap.keys (extractLabelsFromResource toStr R) :=
      (mem_keys_extractLabelsFromResource toStr R key).2 hkey
    cases hE : StringMap.Get (extractLabelsFromResource toStr R) key with
    | none => exact absurd hin ((get_eq_none_iff _ _).1 hE)
    | some w =>
      have hnd := keys_extractLabelsFromResource_nodup toStr R
      have hrev : StringMap.Get (extractLabelsFromResource toStr R).reverse key = some w := by
        apply get_of_unique
        · exact List.mem_reverse.2 (get_mem _ _ _ hE)
        · intro w2 hw2
          exact mem_unique_of_nodup_keys _ hnd key w2 w (List.mem_reverse.1 hw2)
            (get_mem _ _ _ hE)
      rw [hrev]

/-- A datapoint labelled zone b under a resource with attribute region us-east
keeps zone b. -/
theorem c1_prelabel_kept_witness :
    ∃ L2, labelsAt (convertResourceToLabels stringPassthrough
        (exDoc [("region", "us-east")] (.gauge [exPoint [("zone", "b")]]))) 0 0 0 0 = some L2 ∧
      StringMap.Get L2 "zone" = some "b" := by
  obtain ⟨L2, hL2, hkeep, _⟩ :=
    c1_prelabel_kept_unless_resource_defines stringPassthrough
      (exDoc [("region", "us-east")] (.gauge [exPoint [("zone", "b")]])) 0 0 0 0
      { attributes := [("region", "us-east")] }
      { name := "m", description := "", unit := "1", data := .gauge [exPoint [("zone", "b")]] }
      [("zone", "b")] "zone" "b" (by decide) (by decide) (by decide) (by decide)
  exact ⟨L2, hL2, hkeep (Or.inl (by decide))⟩

/-- C2: for a datapoint of a Gauge, Sum or Histogram metric that has no label
`key`, under a resource of which `key` is an attribute key, the output datapoint
carries label `key` with value `AttributeValueToString av`, where `av` is the
value of the attribute of the resource with that key (of the last one, should
the attribute list repeat the key). -/
theorem c2_resource_attribute_promoted {AV : Type} (toStr : AV → String)
    (md : Metrics AV) (i j k l : Nat) (R : Resource AV) (M : Metric) (L : StringMap)
    (key : String)
    (hR : resourceAt md i = some R) (hM : metricAt md i j k = some M)
    (hrec : M.data.isRecognized = true) (hL : labelsAt md i j k l = some L)
    (_hfree : key ∉ StringMap.keys L)
    (hkey : key ∈ AttributeMap.keys R.attributes) :
    ∃ L2 pre av post, labelsAt (convertResourceToLabels toStr md) i j k l = some L2 ∧
      R.attributes = pre ++ (key, av) :: post ∧ key ∉ AttributeMap.keys post ∧
      StringMap.Get L2 key = some (toStr av) := by
  obtain ⟨pre, av, post, hsplit, hpost⟩ := exists_last_attribute R.attributes key hkey
  obtain ⟨L2, hL2, hget⟩ :=
    get_labelsAt_convert_of_extracted toStr md i j k l R M L key (toStr av) hR hM hrec hL
      (get_extractLabelsFromResource_last toStr R key pre post av hsplit hpost)
  exact ⟨L2, pre, av, post, hL2, hsplit, hpost, hget⟩

/-- Scenario C of the spec: the third datapoint of the Histogram receives the
label host from its resource; and under the resource region us-east, region
eu-west, zone c the datapoint labelled zone b receives region eu-west. -/
theorem c2_resource_attribute_promoted_scenarioC :
    (∃ L2 pre av post,
      labelsAt (convertResourceToLabels stringPassthrough scenarioC) 0 0 0 2 = some L2 ∧
      [("region", "us-east"), ("host", "h1")] = pre ++ ("host", av) :: post ∧
      "host" ∉ AttributeMap.keys post ∧
      StringMap.Get L2 "host" = some (stringPassthrough av)) ∧
    (labelsAt (convertResourceToLabels stringPassthrough scenarioC) 0 0 0 2).bind
      (fun L2 => StringMap.Get L2 "host") = some "h1" ∧
    (∃ L2 pre av post,
      labelsAt (convertResourceToLabels stringPassthrough repeatedKeyDoc) 0 0 0 0 = some L2 ∧
      [("region", "us-east"), ("region", "eu-west"), ("zone", "c")]
        = pre ++ ("region", av) :: post ∧
      "region" ∉ AttributeMap.keys post ∧
      StringMap.Get L2 "region" = some (stringPassthrough av)) ∧
    (labelsAt (convertResourceToLabels stringPassthrough repeatedKeyDoc) 0 0 0 0).bind
      (fun L2 => StringMap.Get L2 "region") = some "eu-west" :=
  ⟨c2_resource_attribute_promoted stringPassthrough scenarioC 0 0 0 2
    { attributes := [("region", "us-east"), ("host", "h1")] }
    { name := "m", description := "", unit := "1",
      data := .histogram 2 [exHistPoint [], exHistPoint [], exHistPoint [("zone", "b")]] }
    [("zone", "b")] "host" (by decide) (by decide) (by decide) (by decide) (by decide)
    (by decide),
   by decide,
   c2_resource_attribute_promoted stringPassthrough repeatedKeyDoc 0 0 0 0
    { attributes := [("region", "us-east"), ("region", "eu-west"), ("zone", "c")] }
    { name := "m", description := "", unit := "1", data := .gauge [exPoint [("zone", "b")]] }
    [("zone", "b")] "region" (by decide) (by decide) (by decide) (by decide) (by decide)
    (by decide),
   by decide⟩

/-- C3: the output document has the same number and order of resource groups,
of scopes in each resource group, of metrics in each scope and of datapoints in
each metric as the input, and agrees with the input on every field that is not
a datapoint label mapping. -/
theorem c3_shape_preserved {AV : Type} (toStr : AV → String) (md : Metrics AV) :
    (convertResourceToLabels toStr md).withoutLabels = md.withoutLabels ∧
    (convertResourceToLabels toStr md).resourceMetrics.length = md.resourceMetrics.length ∧
    (∀ i : Nat, resourceAt (convertResourceToLabels toStr md) i = resourceAt md i) ∧
    (∀ i : Nat, ((convertResourceToLabels toStr md).resourceMetrics[i]?).map
            (fun rm : ResourceMetrics AV => rm.instrumentationLibraryMetrics.length)
          = (md.resourceMetrics[i]?).map
            (fun rm : ResourceMetrics AV => rm.instrumentationLibraryMetrics.length)) ∧
    (∀ i j : Nat, (scopeAt (convertResourceToLabels toStr md) i j).map
              (fun ilm => (ilm.libraryName, ilm.libraryVersion, ilm.metrics.length))
          = (scopeAt md i j).map
              (fun ilm => (ilm.libraryName, ilm.libraryVersion, ilm.metrics.length))) ∧
    (∀ i j k : Nat, (metricAt (convertResourceToLabels toStr md) i j k).map
                (fun m => (m.name, m.description, m.unit, m.data.numDataPoints))
          = (metricAt md i j k).map
                (fun m => (m.name, m.description, m.unit, m.data.numDataPoints))) := by
  refine ⟨?_, ?_, resourceAt_convert toStr md, ?_, ?_, ?_⟩
  · simp [convertResourceToLabels, Metrics.Clone, Metrics.withoutLabels, Function.comp_def,
      withoutLabels_convertResourceMetrics]
  · simp [convertResourceToLabels, Metrics.Clone]
  · intro i
    rw [resourceMetrics_convert]
    cases md.resourceMetrics[i]? <;> simp [convertResourceMetrics]
  · intro i j
    rw [scopeAt_convert]
    unfold scopeAt
    cases md.resourceMetrics[i]? with
    | none => simp
    | some rm =>
      cases h : rm.instrumentationLibraryMetrics[j]? <;> simp [h]
  · intro i j k
    cases hM : metricAt md i j k with
    | none =>
      unfold metricAt at hM ⊢
      rw [resourceMetrics_convert]
      cases hrm : md.resourceMetrics[i]? with
      | none => simp
      | some rm =>
        rw [hrm] at hM
        simp only [Option.some_bind] at hM
        cases hilm : rm.instrumentationLibraryMetrics[j]? with
        | none => simp [convertResourceMetrics, hilm]
        | some ilm =>
          rw [hilm] at hM
          simp only [Option.some_bind] at hM
          simp [convertResourceMetrics, hilm, hM]
    | some M =>
      obtain ⟨R, hR⟩ := metricAt_resource md i j k M hM
      rw [metricAt_convert toStr md i j k R hR, hM]
      obtain ⟨n, d, u, data⟩ := M
      simp only [Option.map_some', Option.some.injEq, Prod.mk.injEq,
        numDataPoints_addLabelsToMetric]
      cases data <;> simp [addLabelsToMetric]

/-- C4: a metric whose data type is none of Gauge, Sum, Histogram is equal in
the output to the metric at the same position of the input. -/
theorem c4_unrecognized_metric_unchanged {AV : Type} (toStr : AV → String)
    (md : Metrics AV) (i j k : Nat) (M : Metric)
    (hM : metricAt md i j k = some M) (hother : M.data.isRecognized = false) :
    metricAt (convertResourceToLabels toStr md) i j k = some M := by
  obtain ⟨R, hR⟩ := metricAt_resource md i j k M hM
  rw [metricAt_convert toStr md i j k R hR, hM]
  simp [addLabelsToMetric_of_not_recognized M _ hother]

/-- A summary metric with a labelled datapoint under a resource with an
attribute is unchanged by the transform. -/
theorem c4_unrecognized_metric_unchanged_summary :
    metricAt (convertResourceToLabels stringPassthrough
        (exDoc [("region", "us-east")]
          (.summary [{ labels := [("zone", "b")], startTimestamp := 0, timestamp := 1,
                       count := 1, sum := 0, quantileValues := [] }]))) 0 0 0
      = some { name := "m", description := "", unit := "1",
               data := .summary [{ labels := [("zone", "b")], startTimestamp := 0,
                                   timestamp := 1, count := 1, sum := 0,
                                   quantileValues := [] }] } :=
  c4_unrecognized_metric_unchanged stringPassthrough _ 0 0 0 _ (by decide) (by decide)

/-- C5: on documents as explicit state, a call on an allocated input handle
succeeds, leaves the input document (and every other document that was
allocated) as it was, and returns a new handle, distinct from the input, behind
which the transformed document sits. -/
theorem c5_input_document_unchanged {AV : Type} (toStr : AV → String) (st : Store AV)
    (md : Nat) (D : Metrics AV) (hD : st.read md = some D) :
    ∃ st2 cloneMd, convertResourceToLabelsInStore toStr st md = some (st2, cloneMd) ∧
      st2.read md = some D ∧
      cloneMd ≠ md ∧
      st.read cloneMd = none ∧
      st2.read cloneMd = some (convertResourceToLabels toStr D) ∧
      (∀ r, r ≠ cloneMd → st2.read r = st.read r) := by
  unfold Store.read at hD
  have hlt : md < st.cells.length := by
    rcases Nat.lt_or_ge md st.cells.length with h | h
    · exact h
    · rw [List.getElem?_eq_none h] at hD
      cases hD
  have hclone : (st.cells ++ [D])[st.cells.length]? = some D := by simp
  refine ⟨{ cells := (st.cells ++ [D]).set st.cells.length (convertResourceToLabels toStr D) },
    st.cells.length, ?_, ?_, ?_, ?_, ?_, ?_⟩
  · simp only [convertResourceToLabelsInStore, Store.Clone, Store.read, hD, Option.map_some',
      Store.mutate, hclone]
    rfl
  · simp only [Store.read]
    rw [List.getElem?_set_ne (Nat.ne_of_gt hlt), List.getElem?_append_left hlt, hD]
  · exact Nat.ne_of_gt hlt
  · simp [Store.read]
  · simp [Store.read]
  · intro r hr
    simp only [Store.read]
    rw [List.getElem?_set_ne (fun e => hr e.symm)]
    rcases Nat.lt_or_ge r st.cells.length with h | h
    · rw [List.getElem?_append_left h]
    · have h2 : st.cells.length < r := Nat.lt_of_le_of_ne h (fun e => hr e.symm)
      rw [List.getElem?_eq_none h, List.getElem?_eq_none (by simp; omega)]

/-- The call on a store holding Scenario B leaves Scenario B behind handle 0. -/
theorem c5_input_document_unchanged_scenarioB :
    ∃ st2 cloneMd,
      convertResourceToLabelsInStore stringPassthrough { cells := [scenarioB] } 0
        = some (st2, cloneMd) ∧
      st2.read 0 = some scenarioB ∧
      cloneMd ≠ 0 ∧
      Store.read { cells := [scenarioB] } cloneMd = none ∧
      st2.read cloneMd = some (convertResourceToLabels stringPassthrough scenarioB) ∧
      (∀ r, r ≠ cloneMd → st2.read r = Store.read { cells := [scenarioB] } r) :=
  c5_input_document_unchanged stringPassthrough { cells := [scenarioB] } 0 scenarioB
    (by decide)

/-- C6, as stated, fails: joining the source region us-east into the target
region eu-west leaves the target with region us-east, so a key that was present
in the target does not keep its value. -/
theorem c6_join_overwrites_existing_key :
    StringMap.Get [("region", "eu-west")] "region" = some "eu-west" ∧
    joinStringMaps [("region", "us-east")] [("region", "eu-west")] = [("region", "us-east")] ∧
    StringMap.Get (joinStringMaps [("region", "us-east")] [("region", "eu-west")]) "region"
      ≠ StringMap.Get [("region", "eu-west")] "region" := by
  decide

/-- C6, amended: after `joinStringMaps(from, to)` the target contains every key
of `from` with the value `from` gives it, whether or not the key was in `to`,
and every key of `to` that is not a key of `from` still has the value it had
before the call. -/
theorem c6_join_source_wins (fromMap toMap : StringMap) (k : String) :
    (∀ v, (k, v) ∈ fromMap → (∀ w, (k, w) ∈ fromMap → w = v) →
      StringMap.Get (joinStringMaps fromMap toMap) k = some v) ∧
    (k ∉ StringMap.keys fromMap →
      StringMap.Get (joinStringMaps fromMap toMap) k = StringMap.Get toMap k) := by
  constructor
  · intro v hmem huniq
    rw [get_joinStringMaps]
    have hrev : StringMap.Get fromMap.reverse k = some v :=
      get_of_unique _ k v (List.mem_reverse.2 hmem)
        (fun w hw => huniq w (List.mem_reverse.1 hw))
    rw [hrev]
  · intro hk
    rw [get_joinStringMaps]
    have hnone : StringMap.Get fromMap.reverse k = none := by
      rw [get_eq_none_iff]
      simpa [StringMap.keys] using hk
    rw [hnone]

/-- The join of region us-east into the target zone b, region eu-west: region
takes the source value. -/
theorem c6_join_source_wins_region :
    StringMap.Get (joinStringMaps [("region", "us-east")]
      [("zone", "b"), ("region", "eu-west")]) "region" = some "us-east" ∧
    StringMap.Get (joinStringMaps [("region", "us-east")]
      [("zone", "b"), ("region", "eu-west")]) "zone"
      = StringMap.Get [("zone", "b"), ("region", "eu-west")] "zone" :=
  ⟨(c6_join_source_wins [("region", "us-east")] [("zone", "b"), ("region", "eu-west")]
      "region").1 "us-east" (by decide) (by intro w hw; simpa using hw),
   (c6_join_source_wins [("region", "us-east")] [("zone", "b"), ("region", "eu-west")]
      "zone").2 (by decide)⟩

/-- C7: the labels extracted from a resource have exactly the attribute keys of
the resource as keys, each once; the value of every such key is the stringified
value of the attribute of the resource with that key (of the last one, should
the attribute list repeat the key); a resource without attributes yields the
empty mapping. -/
theorem c7_extract_contract {AV : Type} (toStr : AV → String) (R : Resource AV) :
    (∀ k, k ∈ StringMap.keys (extractLabelsFromResource toStr R)
        ↔ k ∈ AttributeMap.keys R.attributes) ∧
    (StringMap.keys (extractLabelsFromResource toStr R)).Nodup ∧
    (∀ k, k ∈ AttributeMap.keys R.attributes →
      ∃ pre av post, R.attributes = pre ++ (k, av) :: post ∧
        k ∉ AttributeMap.keys post ∧
        StringMap.Get (extractLabelsFromResource toStr R) k = some (toStr av)) ∧
    (R.attributes = [] → extractLabelsFromResource toStr R = []) := by
  refine ⟨mem_keys_extractLabelsFromResource toStr R,
    keys_extractLabelsFromResource_nodup toStr R, ?_, ?_⟩
  · intro k hk
    obtain ⟨pre, av, post, hsplit, hpost⟩ := exists_last_attribute R.attributes k hk
    exact ⟨pre, av, post, hsplit, hpost,
      get_extractLabelsFromResource_last toStr R k pre post av hsplit hpost⟩
  · intro h
    rw [extractLabelsFromResource_eq_join, h]
    rfl

/-- The labels extracted from the resource region us-east, region eu-west,
zone c: region has the value of the last attribute with that key. -/
theorem c7_extract_contract_repeated_key :
    (∃ pre av post,
      [("region", "us-east"), ("region", "eu-west"), ("zone", "c")]
        = pre ++ ("region", av) :: post ∧
      "region" ∉ AttributeMap.keys post ∧
      StringMap.Get (extractLabelsFromResource stringPassthrough
        { attributes := [("region", "us-east"), ("region", "eu-west"), ("zone", "c")] })
        "region" = some (stringPassthrough av)) ∧
    extractLabelsFromResource stringPassthrough
        { attributes := [("region", "us-east"), ("region", "eu-west"), ("zone", "c")] }
      = [("region", "eu-west"), ("zone", "c")] ∧
    extractLabelsFromResource stringPassthrough { attributes := [] } = [] :=
  ⟨(c7_extract_contract stringPassthrough
      { attributes := [("region", "us-east"), ("region", "eu-west"), ("zone", "c")] }).2.2.1
      "region" (by decide),
   by decide,
   (c7_extract_contract stringPassthrough { attributes := [] }).2.2.2 rfl⟩

/-- C8: a document in which every resource has no attributes is returned as it
is; and under any resource without attributes the resource group, and so the
label mapping of every datapoint beneath it, is the same in the output as in
the input. -/
theorem c8_empty_resource_identity {AV : Type} (toStr : AV → String) (md : Metrics AV) :
    ((∀ rm ∈ md.resourceMetrics, rm.resource.attributes = []) →
      convertResourceToLabels toStr md = md) ∧
    (∀ (i : Nat) (R : Resource AV), resourceAt md i = some R → R.attributes = [] →
      (convertResourceToLabels toStr md).resourceMetrics[i]? = md.resourceMetrics[i]? ∧
      ∀ j k l : Nat,
        labelsAt (convertResourceToLabels toStr md) i j k l = labelsAt md i j k l) := by
  constructor
  · intro h
    obtain ⟨rms⟩ := md
    simp only [convertResourceToLabels, Metrics.Clone, Metrics.mk.injEq]
    have hmap : ∀ rm ∈ rms, convertResourceMetrics toStr rm = id rm :=
      fun rm hrm => convertResourceMetrics_of_no_attributes toStr rm (h rm hrm)
    rw [List.map_congr_left hmap, List.map_id]
  · intro i R hR hattrs
    have hgroup : (convertResourceToLabels toStr md).resourceMetrics[i]?
        = md.resourceMetrics[i]? := by
      rw [resourceMetrics_convert]
      unfold resourceAt at hR
      cases hrm : md.resourceMetrics[i]? with
      | none => rfl
      | some rm =>
        rw [hrm] at hR
        have hres : rm.resource = R := by simpa using hR
        rw [Option.map_some', convertResourceMetrics_of_no_attributes toStr rm
          (by rw [hres]; exact hattrs)]
    refine ⟨hgroup, ?_⟩
    intro j k l
    unfold labelsAt metricAt
    rw [hgroup]

/-- Scenario D of the spec: a resource without attributes above a labelled Gauge
datapoint. -/
theorem c8_empty_resource_identity_scenarioD :
    convertResourceToLabels stringPassthrough
        (exDoc [] (.gauge [exPoint [("zone", "b")]]))
      = exDoc [] (.gauge [exPoint [("zone", "b")]]) ∧
    labelsAt (convertResourceToLabels stringPassthrough
        (exDoc [] (.gauge [exPoint [("zone", "b")]]))) 0 0 0 0
      = labelsAt (exDoc [] (.gauge [exPoint [("zone", "b")]])) 0 0 0 0 :=
  ⟨(c8_empty_resource_identity stringPassthrough
      (exDoc [] (.gauge [exPoint [("zone", "b")]]))).1 (by decide),
   ((c8_empty_resource_identity stringPassthrough
      (exDoc [] (.gauge [exPoint [("zone", "b")]]))).2 0 { attributes := [] }
      (by decide) rfl).2 0 0 0⟩

/-- C9: when every datapoint label mapping of the input has pairwise distinct
keys, every datapoint label mapping of the output has pairwise distinct keys,
whatever the attribute list of the resource is (it may share keys with the
labels, and it may repeat a key). -/
theorem c9_label_keys_stay_distinct {AV : Type} (toStr : AV → String) (md : Metrics AV)
    (hin : ∀ (i j k l : Nat) (L : StringMap),
      labelsAt md i j k l = some L → (StringMap.keys L).Nodup)
    (i j k l : Nat) (L2 : StringMap)
    (hL2 : labelsAt (convertResourceToLabels toStr md) i j k l = some L2) :
    (StringMap.keys L2).Nodup := by
  obtain ⟨L, hL⟩ := labelsAt_of_convert toStr md i j k l L2 hL2
  exact keys_labelsAt_convert_nodup toStr md i j k l L L2 hL (hin i j k l L hL) hL2

/-- The output labels of the document with a repeated attribute key have
pairwise distinct keys. -/
theorem c9_label_keys_stay_distinct_repeated_key :
    labelsAt (convertResourceToLabels stringPassthrough repeatedKeyDoc) 0 0 0 0
      = some [("zone", "c"), ("region", "eu-west")] ∧
    (StringMap.keys [("zone", "c"), ("region", "eu-west")]).Nodup :=
  ⟨by decide,
   c9_label_keys_stay_distinct stringPassthrough repeatedKeyDoc
    (by
      intro i j k l L h
      rcases i with _ | i
      · rcases j with _ | j
        · rcases k with _ | k
          · rcases l with _ | l
            · have hL : L = [("zone", "b")] := by
                simpa [labelsAt, metricAt, repeatedKeyDoc, exDoc, exPoint,
                  MetricData.labelMaps] using h.symm
              rw [hL]
              decide
            · simp [labelsAt, metricAt, repeatedKeyDoc, exDoc, exPoint,
                MetricData.labelMaps] at h
          · simp [labelsAt, metricAt, repeatedKeyDoc, exDoc] at h
        · simp [labelsAt, metricAt, repeatedKeyDoc, exDoc] at h
      · simp [labelsAt, metricAt, repeatedKeyDoc, exDoc] at h)
    0 0 0 0 [("zone", "c"), ("region", "eu-west")] (by decide)⟩

/-- C10: running the transform on its own output returns that output. -/
theorem c10_convert_idempotent {AV : Type} (toStr : AV → String) (md : Metrics AV) :
    convertResourceToLabels toStr (convertResourceToLabels toStr md)
      = convertResourceToLabels toStr md := by
  simp [convertResourceToLabels, Metrics.Clone, Function.comp_def,
    convertResourceMetrics_idem]

/-- C11: the default settings have `Enabled` set to false. -/
theorem c11_default_settings_disabled :
    defaultResourceToTelemetrySettings.Enabled = false := rfl

/-- C12: for a datapoint of a Gauge, Sum or Histogram metric under a resource
of which `key` is an attribute key, the output datapoint carries label `key`
with value `AttributeValueToString av`, where `av` is the value of the attribute
of the resource with that key (of the last one, should the attribute list repeat
the key), whether or not the input datapoint carried a label `key` and whatever
its value was. -/
theorem c12_resource_value_wins {AV : Type} (toStr : AV → String)
    (md : Metrics AV) (i j k l : Nat) (R : Resource AV) (M : Metric) (L : StringMap)
    (key : String)
    (hR : resourceAt md i = some R) (hM : metricAt md i j k = some M)
    (hrec : M.data.isRecognized = true) (hL : labelsAt md i j k l = some L)
    (hkey : key ∈ AttributeMap.keys R.attributes) :
    ∃ L2 pre av post, labelsAt (convertResourceToLabels toStr md) i j k l = some L2 ∧
      R.attributes = pre ++ (key, av) :: post ∧ key ∉ AttributeMap.keys post ∧
      StringMap.Get L2 key = some (toStr av) := by
  obtain ⟨pre, av, post, hsplit, hpost⟩ := exists_last_attribute R.attributes key hkey
  obtain ⟨L2, hL2, hget⟩ :=
    get_labelsAt_convert_of_extracted toStr md i j k l R M L key (toStr av) hR hM hrec hL
      (get_extractLabelsFromResource_last toStr R key pre post av hsplit hpost)
  exact ⟨L2, pre, av, post, hL2, hsplit, hpost, hget⟩

/-- The datapoint labelled region ap-south under the resource region us-east,
region eu-west ends with region eu-west. -/
theorem c12_resource_value_wins_repeated_key :
    StringMap.Get [("region", "ap-south")] "region" = some "ap-south" ∧
    (∃ L2 pre av post,
      labelsAt (convertResourceToLabels stringPassthrough repeatedConflictDoc) 0 0 0 0
        = some L2 ∧
      [("region", "us-east"), ("region", "eu-west")] = pre ++ ("region", av) :: post ∧
      "region" ∉ AttributeMap.keys post ∧
      StringMap.Get L2 "region" = some (stringPassthrough av)) ∧
    (labelsAt (convertResourceToLabels stringPassthrough repeatedConflictDoc) 0 0 0 0).bind
      (fun L2 => StringMap.Get L2 "region") = some "eu-west" :=
  ⟨by decide,
   c12_resource_value_wins stringPassthrough repeatedConflictDoc 0 0 0 0
    { attributes := [("region", "us-east"), ("region", "eu-west")] }
    { name := "m", description := "", unit := "1",
      data := .gauge [exPoint [("region", "ap-south")]] }
    [("region", "ap-south")] "region" (by decide) (by decide) (by decide) (by decide)
    (by decide),
   by decide⟩

/-- C13: a datapoint label whose key is not an attribute key of the resource
above the datapoint has the same value on the output datapoint. -/
theorem c13_unrelated_label_preserved {AV : Type} (toStr : AV → String)
    (md : Metrics AV) (i j k l : Nat) (R : Resource AV) (L : StringMap) (key v : String)
    (hR : resourceAt md i = some R) (hL : labelsAt md i j k l = some L)
    (hv : StringMap.Get L key = some v)
    (hfree : key ∉ AttributeMap.keys R.attributes) :
    ∃ L2, labelsAt (convertResourceToLabels toStr md) i j k l = some L2 ∧
      StringMap.Get L2 key = some v := by
  obtain ⟨R2, M, hR2, hM⟩ := labelsAt_metric md i j k l L hL
  refine ⟨_, labelsAt_convert toStr md i j k l R M L hR hM hL, ?_⟩
  by_cases hrec : M.data.isRecognized = true
  · simp only [hrec, if_true]
    rw [get_joinStringMaps]
    have hnone : StringMap.Get (extractLabelsFromResource toStr R).reverse key = none := by
      rw [get_eq_none_iff]
      intro hin
      apply hfree
      rw [← mem_keys_extractLabelsFromResource toStr R key]
      simpa [StringMap.keys] using hin
    rw [hnone]
    exact hv
  · simp only [hrec]
    exact hv

/-- The label zone b of the first datapoint of the two-resource document stays
zone b. -/
theorem c13_unrelated_label_preserved_zone :
    ∃ L2, labelsAt (convertResourceToLabels stringPassthrough twoResourceDoc) 0 0 0 0
        = some L2 ∧
      StringMap.Get L2 "zone" = some "b" :=
  c13_unrelated_label_preserved stringPassthrough twoResourceDoc 0 0 0 0
    { attributes := [("region", "us-east")] } [("zone", "b")] "zone" "b"
    (by decide) (by decide) (by decide) (by decide)

/-- C14: the keys of an output datapoint label mapping are among the keys of the
input labels and the attribute keys of the resource above the datapoint; for a
Gauge, Sum or Histogram metric they are exactly those; a key that is only an
attribute key of another resource of the document is not on the datapoint. -/
theorem c14_no_extraneous_labels {AV : Type} (toStr : AV → String)
    (md : Metrics AV) (i j k l : Nat) (R : Resource AV) (M : Metric) (L : StringMap)
    (hR : resourceAt md i = some R) (hM : metricAt md i j k = some M)
    (hL : labelsAt md i j k l = some L) :
    ∃ L2, labelsAt (convertResourceToLabels toStr md) i j k l = some L2 ∧
      (∀ x, x ∈ StringMap.keys L2 →
        x ∈ StringMap.keys L ∨ x ∈ AttributeMap.keys R.attributes) ∧
      (M.data.isRecognized = true → ∀ x, x ∈ StringMap.keys L2 ↔
        (x ∈ StringMap.keys L ∨ x ∈ AttributeMap.keys R.attributes)) ∧
      (∀ (i2 : Nat) (R2 : Resource AV) (x : String), i2 ≠ i → resourceAt md i2 = some R2 →
        x ∈ AttributeMap.keys R2.attributes → x ∉ StringMap.keys L →
        x ∉ AttributeMap.keys R.attributes → x ∉ StringMap.keys L2) := by
  have hsub : ∀ x, x ∈ StringMap.keys (if M.data.isRecognized
        then joinStringMaps (extractLabelsFromResource toStr R) L else L) →
      x ∈ StringMap.keys L ∨ x ∈ AttributeMap.keys R.attributes := by
    intro x hx
    rcases (mem_keys_labelsAt_convert toStr R M L x).1 hx with h | h
    · exact Or.inl h
    · exact Or.inr h.2
  refine ⟨_, labelsAt_convert toStr md i j k l R M L hR hM hL, hsub, ?_, ?_⟩
  · intro hrec x
    rw [mem_keys_labelsAt_convert toStr R M L x]
    simp [hrec]
  · intro i2 R2 x _ _ _ hnotL hnotR hx
    rcases hsub x hx with h | h
    · exact hnotL h
    · exact hnotR h

/-- In the two-resource document the first datapoint ends with the keys zone and
region, and the attribute key host of the other resource is not among them. -/
theorem c14_no_extraneous_labels_two_resources :
    ∃ L2, labelsAt (convertResourceToLabels stringPassthrough twoResourceDoc) 0 0 0 0
        = some L2 ∧
      (∀ x, x ∈ StringMap.keys L2 ↔
        (x ∈ StringMap.keys [("zone", "b")] ∨
          x ∈ AttributeMap.keys [("region", "us-east")])) ∧
      "host" ∉ StringMap.keys L2 := by
  obtain ⟨L2, hL2, _, hexact, hother⟩ :=
    c14_no_extraneous_labels stringPassthrough twoResourceDoc 0 0 0 0
      { attributes := [("region", "us-east")] }
      { name := "m", description := "", unit := "1", data := .gauge [exPoint [("zone", "b")]] }
      [("zone", "b")] (by decide) (by decide) (by decide)
  exact ⟨L2, hL2, hexact (by decide),
    hother 1 { attributes := [("host", "h1")] } "host" (by decide) (by decide) (by decide)
      (by decide) (by decide)⟩

/-- C15: the slice built by `toSlice` has the length of its input and holds the
elements of the input at the same positions (the empty input gives the empty
slice), so `diffMetricData` hands `diffRMSlices` the resource groups of the two
documents in document order. -/
theorem c15_toSlice_preserves_order_and_length {AV δ : Type} (s : ResourceMetricsSlice AV)
    (diffRMSlices : List (ResourceMetrics AV) → List (ResourceMetrics AV) → δ)
    (expected actual : Metrics AV) :
    (toSlice s).length = ResourceMetricsSlice.Len s ∧
    (∀ i : Nat, (toSlice s)[i]? = s[i]?) ∧
    toSlice ([] : ResourceMetricsSlice AV) = [] ∧
    diffMetricData diffRMSlices expected actual
      = diffRMSlices expected.resourceMetrics actual.resourceMetrics := by
  refine ⟨?_, ?_, toSlice_eq [], ?_⟩
  · rw [toSlice_eq]
    rfl
  · intro i
    rw [toSlice_eq]
  · unfold diffMetricData
    rw [toSlice_eq, toSlice_eq]

end ResourceToLabel
